import Mathlib

/-!
Shallow embedding of the hand-rolled PageRank engine of
`src/Experiment_6/experiment_6.py` (`manual_pagerank`), the one component of
the repository with genuine algorithmic content.  Python floats are modelled
by exact rationals; the `dict` returned by the engine is modelled by an
association list keyed by the sorted node identifiers; the one exception the
code can raise (`ZeroDivisionError`, from `(1 - d) / N` with `N = 0`) is
modelled with `Except`; the `print` call inside the iteration loop is
modelled by returning the list of lines written to stdout alongside the
result.
-/

set_option maxRecDepth 2000
set_option maxHeartbeats 1000000

namespace SNA

/-- The only exception `manual_pagerank` itself can raise: the float division
`(1 - d) / N` in the loop body divides by the node count. -/
inductive PyErr where
  | zeroDivisionError
deriving DecidableEq

instance {ε σ : Type} [DecidableEq ε] [DecidableEq σ] :
    DecidableEq (Except ε σ) := fun a b =>
  match a, b with
  | Except.ok x, Except.ok y =>
      if h : x = y then isTrue (h ▸ rfl)
      else isFalse (fun hh => h (Except.ok.inj hh))
  | Except.error x, Except.error y =>
      if h : x = y then isTrue (h ▸ rfl)
      else isFalse (fun hh => h (Except.error.inj hh))
  | Except.ok _, Except.error _ => isFalse (fun hh => Except.noConfusion hh)
  | Except.error _, Except.ok _ => isFalse (fun hh => Except.noConfusion hh)

/-- A directed graph in the sense of `networkx.DiGraph`, as the engine uses
it: a finite set of node identifiers (modelled as a duplicate-free list) and,
for each node, its set of out-neighbors (`graph.neighbors(u)`, duplicate-free,
all of them nodes of the graph — invariants `networkx` maintains). -/
structure DiGraph (α : Type) where
  nodes : List α
  adj : α → List α
  nodes_nodup : nodes.Nodup
  adj_nodup : ∀ u ∈ nodes, (adj u).Nodup
  adj_mem : ∀ u ∈ nodes, ∀ v ∈ adj u, v ∈ nodes

variable {α : Type} [LinearOrder α]

/-- `nodes = sorted(list(graph.nodes()))` — the internal node ordering. -/
def sortedNodes (g : DiGraph α) : List α :=
  List.insertionSort (fun a b => a ≤ b) g.nodes

/-- One assignment `M[node_idx[v], node_idx[u]] = x`.  The Python code indexes
the matrix by integer positions through the bijection `node_idx`; since that
map is injective on the (duplicate-free) node list, the matrix is modelled
directly as a function of (row node, column node). -/
def setEntry (M : α → α → ℚ) (r c : α) (x : ℚ) : α → α → ℚ :=
  fun r0 c0 => if r0 = r ∧ c0 = c then x else M r0 c0

/-- The body of `for u in nodes:` — fill column `u` of `M`: a dangling node
(`len(neighbors) == 0`) sends `1/N` to every node, otherwise `u` sends
`1/len(neighbors)` to each of its out-neighbors. -/
def fillColumn (ns : List α) (adjU : List α) (u : α) (M0 : α → α → ℚ) :
    α → α → ℚ :=
  if adjU.isEmpty then
    ns.foldl (fun M v => setEntry M v u (1 / (ns.length : ℚ))) M0
  else
    adjU.foldl (fun M v => setEntry M v u (1 / (adjU.length : ℚ))) M0

/-- `M = np.zeros((N, N))` followed by the double loop filling the columns. -/
def buildM (ns : List α) (adj : α → List α) : α → α → ℚ :=
  ns.foldl (fun M u => fillColumn ns (adj u) u M) (fun _ _ => 0)

/-- Row `r` of the matrix-vector product `M @ v`, with `v` aligned with the
sorted node list `ns`. -/
def matVecRow (M : α → α → ℚ) (ns : List α) (r : α) (v : List ℚ) : ℚ :=
  (List.zipWith (fun c x => M r c * x) ns v).sum

/-- One iteration update `v_next = (1 - d) / N + d * M @ v`. -/
def pagerankStep (ns : List α) (M : α → α → ℚ) (d : ℚ) (v : List ℚ) :
    List ℚ :=
  ns.map (fun r => (1 - d) / (ns.length : ℚ) + d * matVecRow M ns r v)

/-- `np.linalg.norm(v_next - v, 1)` — the L1 distance. -/
def l1dist (x y : List ℚ) : ℚ :=
  (List.zipWith (fun a b => |a - b|) x y).sum

/-- The line printed when the tolerance check triggers. -/
def convergedMsg (i : Nat) : String :=
  "Converged at iteration " ++ toString i

/-- The `for i in range(iterations):` loop.  First `Nat` argument: the value
of `i`; second: remaining iterations.  Computes `vn = f v`; if
`l1dist vn v < tol` it prints and breaks — crucially *before* the assignment
`v = v_next`, so the `v` returned is the previous iterate — otherwise sets
`v = vn` and continues.  Returns the final `v` together with the lines
printed to stdout. -/
def powerLoop (f : List ℚ → List ℚ) (tol : ℚ) :
    Nat → Nat → List ℚ → List ℚ × List String
  | _, 0, v => (v, [])
  | i, k + 1, v =>
    let vn := f v
    if l1dist vn v < tol then (v, [convergedMsg i])
    else powerLoop f tol (i + 1) k vn

/-- The transition matrix the engine derives from `g`. -/
def prMatrix (g : DiGraph α) : α → α → ℚ :=
  buildM (sortedNodes g) g.adj

/-- The engine's iteration map for graph `g` and damping `d`. -/
def prStep (g : DiGraph α) (d : ℚ) : List ℚ → List ℚ :=
  pagerankStep (sortedNodes g) (prMatrix g) d

/-- `v = np.ones(N) / N` — the uniform initial vector. -/
def initVec (g : DiGraph α) : List ℚ :=
  List.replicate (sortedNodes g).length ((1 : ℚ) / ((sortedNodes g).length : ℚ))

/-- `manual_pagerank(graph, d, iterations, tol)`, returning both the value
(`Except` for the one reachable exception) and the stdout lines.  For an
empty graph the comprehension `{node: 1.0/N for node in nodes}` runs zero
times and `np.ones(0)/0` is an empty elementwise division, so the first
failure is the scalar `(1 - d) / N` inside the loop body — reached exactly
when at least one iteration runs.  For a non-empty graph no operation can
fail and the result is `{nodes[i]: v[i] for i in range(N)}`. -/
def manual_pagerank_run (g : DiGraph α) (d : ℚ) (iterations : Nat) (tol : ℚ) :
    Except PyErr (List (α × ℚ)) × List String :=
  if (sortedNodes g).length = 0 then
    if iterations = 0 then (Except.ok [], [])
    else (Except.error PyErr.zeroDivisionError, [])
  else
    let r := powerLoop (prStep g d) tol 0 iterations (initVec g)
    (Except.ok ((sortedNodes g).zip r.1), r.2)

/-- The value returned by `manual_pagerank` (its stdout ignored). -/
def manual_pagerank (g : DiGraph α) (d : ℚ) (iterations : Nat) (tol : ℚ) :
    Except PyErr (List (α × ℚ)) :=
  (manual_pagerank_run g d iterations tol).1

/-- Out-neighbor function of the example web graph of the experiment:
edges A→B, A→C, C→A; B dangling. -/
def exAdj : Char → List Char :=
  fun c => if c = 'A' then ['B', 'C'] else if c = 'C' then ['A'] else []

/-- The example graph `G` of `experiment_6.py`. -/
def exampleG : DiGraph Char where
  nodes := ['A', 'B', 'C']
  adj := exAdj
  nodes_nodup := by decide
  adj_nodup := by decide
  adj_mem := by decide

/-- Out-neighbor function of a small two-node test graph: edge A→B only. -/
def exAdj2 : Char → List Char :=
  fun c => if c = 'A' then ['B'] else []

/-- Two-node graph: A→B, B dangling. -/
def exampleG2 : DiGraph Char where
  nodes := ['A', 'B']
  adj := exAdj2
  nodes_nodup := by decide
  adj_nodup := by decide
  adj_mem := by decide

/-- The same two-node graph presented with its node list in another order
(as an unordered `networkx` node set could be iterated). -/
def exampleG2r : DiGraph Char where
  nodes := ['B', 'A']
  adj := exAdj2
  nodes_nodup := by decide
  adj_nodup := by decide
  adj_mem := by decide

/-- The empty graph. -/
def emptyG : DiGraph Char where
  nodes := []
  adj := fun _ => []
  nodes_nodup := by decide
  adj_nodup := by decide
  adj_mem := by decide

/-! ### Characterization of the transition matrix -/

theorem foldl_setEntry_eval (u : α) (x : ℚ) (l : List α) :
    ∀ (M : α → α → ℚ) (r0 c0 : α),
      l.foldl (fun M v => setEntry M v u x) M r0 c0 =
        if c0 = u ∧ r0 ∈ l then x else M r0 c0 := by
  induction l with
  | nil => intro M r0 c0; simp
  | cons a t ih =>
    intro M r0 c0
    rw [List.foldl_cons, ih]
    simp only [setEntry, List.mem_cons]
    by_cases h1 : c0 = u <;> by_cases h2 : r0 = a <;> by_cases h3 : r0 ∈ t <;>
      simp [h1, h2, h3]

theorem fillColumn_eval (ns adjU : List α) (u : α) (M0 : α → α → ℚ)
    (r0 c0 : α) :
    fillColumn ns adjU u M0 r0 c0 =
      if c0 = u then
        (if adjU.isEmpty then
          (if r0 ∈ ns then 1 / (ns.length : ℚ) else M0 r0 c0)
        else
          (if r0 ∈ adjU then 1 / (adjU.length : ℚ) else M0 r0 c0))
      else M0 r0 c0 := by
  unfold fillColumn
  by_cases h : adjU.isEmpty <;>
    simp only [h, if_true, if_false, foldl_setEntry_eval, Bool.false_eq_true,
      ite_false, ite_true] <;>
  · by_cases h1 : c0 = u <;> by_cases h2 : r0 ∈ ns <;> by_cases h3 : r0 ∈ adjU <;>
      simp [h1, h2, h3]

theorem buildM_fold_eval (ns : List α) (adj : α → List α) (r c : α)
    (hr : r ∈ ns) (l : List α) :
    ∀ (hl : l.Nodup) (M0 : α → α → ℚ),
      l.foldl (fun M u => fillColumn ns (adj u) u M) M0 r c =
        if c ∈ l then
          (if (adj c).isEmpty then 1 / (ns.length : ℚ)
           else if r ∈ adj c then 1 / ((adj c).length : ℚ) else M0 r c)
        else M0 r c := by
  induction l with
  | nil => intro _ M0; simp
  | cons a t ih =>
    intro hl M0
    rw [List.foldl_cons, ih (List.Nodup.of_cons hl)]
    simp only [fillColumn_eval, List.mem_cons]
    by_cases hct : c ∈ t
    · have hca : c ≠ a := fun h => (List.nodup_cons.mp hl).1 (h ▸ hct)
      simp [hct, hca]
    · by_cases hca : c = a
      · subst hca
        simp [hct, hr]
      · simp [hct, hca]

theorem buildM_eval (ns : List α) (adj : α → List α) (hns : ns.Nodup)
    (r c : α) (hr : r ∈ ns) :
    buildM ns adj r c =
      if c ∈ ns then
        (if (adj c).isEmpty then 1 / (ns.length : ℚ)
         else if r ∈ adj c then 1 / ((adj c).length : ℚ) else 0)
      else 0 := by
  unfold buildM
  exact buildM_fold_eval ns adj r c hr ns hns (fun _ _ => 0)

theorem buildM_nonneg (ns : List α) (adj : α → List α) (hns : ns.Nodup)
    (r c : α) (hr : r ∈ ns) : 0 ≤ buildM ns adj r c := by
  rw [buildM_eval ns adj hns r c hr]
  split_ifs <;> first
    | exact le_refl 0
    | exact one_div_nonneg.mpr (Nat.cast_nonneg _)

/-! ### Summation helpers over lists of rationals -/

theorem sum_map_add_distrib {β : Type} (l : List β) (f g : β → ℚ) :
    (l.map (fun x => f x + g x)).sum = (l.map f).sum + (l.map g).sum := by
  induction l with
  | nil => simp
  | cons a t ih => simp only [List.map_cons, List.sum_cons, ih]; ring

theorem sum_map_const {β : Type} (l : List β) (q : ℚ) :
    (l.map (fun _ => q)).sum = (l.length : ℚ) * q := by
  induction l with
  | nil => simp
  | cons a t ih =>
    simp only [List.map_cons, List.sum_cons, ih, List.length_cons]
    push_cast
    ring

theorem sum_ite_eq_single (ns : List α) (hns : ns.Nodup) (a : α) (q : ℚ) :
    (ns.map (fun r => if r = a then q else 0)).sum =
      if a ∈ ns then q else 0 := by
  induction ns with
  | nil => simp
  | cons b t ih =>
    have hbt := List.nodup_cons.mp hns
    simp only [List.map_cons, List.sum_cons, ih hbt.2, List.mem_cons]
    by_cases h1 : b = a
    · subst h1
      simp [hbt.1]
    · by_cases h2 : a ∈ t <;> simp [h1, h2, Ne.symm h1]

theorem sum_ite_mem (ns : List α) (hns : ns.Nodup) (l : List α)
    (hl : l.Nodup) (hsub : ∀ x ∈ l, x ∈ ns) (q : ℚ) :
    (ns.map (fun r => if r ∈ l then q else 0)).sum = (l.length : ℚ) * q := by
  induction l with
  | nil => simp
  | cons a t ih =>
    have hat := List.nodup_cons.mp hl
    have hfun : (fun r => if r ∈ a :: t then q else 0) =
        fun r => (if r = a then q else 0) + (if r ∈ t then q else 0) := by
      funext r
      by_cases h1 : r = a
      · subst h1
        simp [hat.1]
      · simp [h1, List.mem_cons]
    rw [hfun, sum_map_add_distrib,
      sum_ite_eq_single ns hns a q,
      ih hat.2 (fun x hx => hsub x (List.mem_cons_of_mem a hx))]
    have ha : a ∈ ns := hsub a (List.mem_cons_self a t)
    simp only [ha, if_true, List.length_cons]
    push_cast
    ring

/-! ### Column-stochasticity -/

theorem buildM_colSum (ns : List α) (adj : α → List α) (hns : ns.Nodup)
    (c : α) (hc : c ∈ ns) (hnd : (adj c).Nodup)
    (hsub : ∀ x ∈ adj c, x ∈ ns) :
    (ns.map (fun r => buildM ns adj r c)).sum = 1 := by
  have hN : (ns.length : ℚ) ≠ 0 :=
    Nat.cast_ne_zero.mpr
      (fun hz => List.ne_nil_of_mem hc (List.length_eq_zero.mp hz))
  have hmap : ns.map (fun r => buildM ns adj r c) =
      ns.map (fun r =>
        if (adj c).isEmpty then 1 / (ns.length : ℚ)
        else if r ∈ adj c then 1 / ((adj c).length : ℚ) else 0) := by
    apply List.map_congr_left
    intro r hr
    rw [buildM_eval ns adj hns r c hr]
    simp [hc]
  rw [hmap]
  by_cases hd : (adj c).isEmpty
  · simp only [hd, if_true]
    rw [sum_map_const]
    field_simp
  · simp only [hd, Bool.false_eq_true, if_false]
    rw [sum_ite_mem ns hns (adj c) hnd hsub]
    have hk : ((adj c).length : ℚ) ≠ 0 := by
      have h1 : adj c ≠ [] := by simpa using hd
      exact Nat.cast_ne_zero.mpr (fun hz => h1 (List.length_eq_zero.mp hz))
    field_simp

/-! ### Mass preservation of one iteration -/

theorem sum_map_matVecRow (rows : List α) (M : α → α → ℚ) :
    ∀ (ns : List α) (v : List ℚ),
      (rows.map (fun r => matVecRow M ns r v)).sum =
        (List.zipWith (fun c x => (rows.map (fun r => M r c)).sum * x) ns v).sum := by
  intro ns
  induction ns with
  | nil => intro v; simp [matVecRow]
  | cons c cs ih =>
    intro v
    cases v with
    | nil => simp [matVecRow]
    | cons x xs =>
      have hstep : ∀ r : α, matVecRow M (c :: cs) r (x :: xs) =
          M r c * x + matVecRow M cs r xs := by
        intro r
        simp [matVecRow]
      rw [show rows.map (fun r => matVecRow M (c :: cs) r (x :: xs)) =
            rows.map (fun r => M r c * x + matVecRow M cs r xs) from
          List.map_congr_left (fun r _ => hstep r)]
      rw [sum_map_add_distrib rows (fun r => M r c * x)
            (fun r => matVecRow M cs r xs),
        List.sum_map_mul_right, ih xs, List.zipWith_cons_cons, List.sum_cons]

theorem zipWith_one_mul_sum (gcol : α → ℚ) :
    ∀ (ns : List α) (v : List ℚ), (∀ c ∈ ns, gcol c = 1) →
      v.length = ns.length →
      (List.zipWith (fun c x => gcol c * x) ns v).sum = v.sum := by
  intro ns
  induction ns with
  | nil =>
    intro v _ hlen
    rw [List.length_eq_zero.mp hlen]
    simp
  | cons c cs ih =>
    intro v h hlen
    cases v with
    | nil => simp
    | cons x xs =>
      rw [List.zipWith_cons_cons, List.sum_cons, List.sum_cons,
        h c (List.mem_cons_self c cs), one_mul,
        ih xs (fun c0 hc0 => h c0 (List.mem_cons_of_mem c hc0))
          (by simpa using hlen)]

theorem pagerankStep_sum (ns : List α) (adj : α → List α) (hns : ns.Nodup)
    (hne : ns ≠ []) (hadjn : ∀ u ∈ ns, (adj u).Nodup)
    (hadjm : ∀ u ∈ ns, ∀ x ∈ adj u, x ∈ ns)
    (d : ℚ) (v : List ℚ) (hlen : v.length = ns.length) (hsum : v.sum = 1) :
    (pagerankStep ns (buildM ns adj) d v).sum = 1 := by
  have hN : (ns.length : ℚ) ≠ 0 :=
    Nat.cast_ne_zero.mpr (fun hz => hne (List.length_eq_zero.mp hz))
  unfold pagerankStep
  rw [sum_map_add_distrib ns (fun _ => (1 - d) / (ns.length : ℚ))
      (fun r => d * matVecRow (buildM ns adj) ns r v),
    sum_map_const, List.sum_map_mul_left, sum_map_matVecRow ns (buildM ns adj) ns v,
    zipWith_one_mul_sum (fun c => (ns.map (fun r => buildM ns adj r c)).sum) ns v
      (fun c hc => buildM_colSum ns adj hns c hc (hadjn c hc) (hadjm c hc)) hlen,
    hsum]
  field_simp

/-! ### Nonnegativity and length of one iteration -/

theorem matVecRow_nonneg (M : α → α → ℚ) (r : α) :
    ∀ (ns : List α) (v : List ℚ), (∀ c ∈ ns, 0 ≤ M r c) →
      (∀ x ∈ v, 0 ≤ x) → 0 ≤ matVecRow M ns r v := by
  intro ns
  induction ns with
  | nil => intro v _ _; simp [matVecRow]
  | cons c cs ih =>
    intro v hM hv
    cases v with
    | nil => simp [matVecRow]
    | cons x xs =>
      have h1 : 0 ≤ M r c * x :=
        mul_nonneg (hM c (List.mem_cons_self c cs)) (hv x (List.mem_cons_self x xs))
      have h2 : 0 ≤ matVecRow M cs r xs :=
        ih xs (fun c0 hc0 => hM c0 (List.mem_cons_of_mem c hc0))
          (fun x0 hx0 => hv x0 (List.mem_cons_of_mem x hx0))
      have : matVecRow M (c :: cs) r (x :: xs) =
          M r c * x + matVecRow M cs r xs := by simp [matVecRow]
      rw [this]
      exact add_nonneg h1 h2

theorem pagerankStep_nonneg (ns : List α) (adj : α → List α) (hns : ns.Nodup)
    (d : ℚ) (hd0 : 0 ≤ d) (hd1 : d ≤ 1) (v : List ℚ) (hv : ∀ x ∈ v, 0 ≤ x) :
    ∀ y ∈ pagerankStep ns (buildM ns adj) d v, 0 ≤ y := by
  intro y hy
  unfold pagerankStep at hy
  obtain ⟨r, hr, rfl⟩ := List.mem_map.mp hy
  have h1 : 0 ≤ (1 - d) / (ns.length : ℚ) :=
    div_nonneg (by linarith) (Nat.cast_nonneg _)
  have h2 : 0 ≤ matVecRow (buildM ns adj) ns r v :=
    matVecRow_nonneg _ r ns v (fun c _ => buildM_nonneg ns adj hns r c hr) hv
  exact add_nonneg h1 (mul_nonneg hd0 h2)

theorem pagerankStep_length (ns : List α) (M : α → α → ℚ) (d : ℚ)
    (v : List ℚ) : (pagerankStep ns M d v).length = ns.length := by
  simp [pagerankStep]

/-! ### The iteration loop -/

theorem powerLoop_zero (f : List ℚ → List ℚ) (tol : ℚ) (i : Nat)
    (v : List ℚ) : powerLoop f tol i 0 v = (v, []) := rfl

theorem powerLoop_succ (f : List ℚ → List ℚ) (tol : ℚ) (i k : Nat)
    (v : List ℚ) :
    powerLoop f tol i (k + 1) v =
      if l1dist (f v) v < tol then (v, [convergedMsg i])
      else powerLoop f tol (i + 1) k (f v) := rfl

theorem powerLoop_fst_invariant (P : List ℚ → Prop) (f : List ℚ → List ℚ)
    (tol : ℚ) (hf : ∀ w, P w → P (f w)) :
    ∀ (k i : Nat) (v : List ℚ), P v → P (powerLoop f tol i k v).1 := by
  intro k
  induction k with
  | zero => intro i v h; exact h
  | succ k ih =>
    intro i v h
    rw [powerLoop_succ]
    by_cases hc : l1dist (f v) v < tol
    · rw [if_pos hc]; exact h
    · rw [if_neg hc]; exact ih (i + 1) (f v) (hf v h)

theorem powerLoop_no_conv (f : List ℚ → List ℚ) (tol : ℚ) :
    ∀ (k i : Nat) (v : List ℚ),
      (∀ j < k, ¬ l1dist (f (f^[j] v)) (f^[j] v) < tol) →
      powerLoop f tol i k v = (f^[k] v, []) := by
  intro k
  induction k with
  | zero => intro i v _; rfl
  | succ k ih =>
    intro i v h
    have h0 := h 0 (Nat.succ_pos k)
    simp only [Function.iterate_zero, id] at h0
    rw [powerLoop_succ, if_neg h0,
      ih (i + 1) (f v) (fun j hj => by
        have hh := h (j + 1) (Nat.succ_lt_succ hj)
        simpa [Function.iterate_succ_apply] using hh),
      ← Function.iterate_succ_apply]

theorem powerLoop_log (f : List ℚ → List ℚ) (tol : ℚ) :
    ∀ (k i : Nat) (v : List ℚ),
      (powerLoop f tol i k v).2 = [] ∨
        ∃ j, i ≤ j ∧ j < i + k ∧
          (powerLoop f tol i k v).2 = [convergedMsg j] := by
  intro k
  induction k with
  | zero => intro i v; left; rfl
  | succ k ih =>
    intro i v
    rw [powerLoop_succ]
    by_cases h : l1dist (f v) v < tol
    · rw [if_pos h]
      right
      exact ⟨i, le_refl i, by omega, rfl⟩
    · rw [if_neg h]
      rcases ih (i + 1) (f v) with h1 | ⟨j, hj1, hj2, hj3⟩
      · left; exact h1
      · right; exact ⟨j, by omega, by omega, hj3⟩

/-! ### Facts about the sorted node list of a graph -/

theorem sortedNodes_perm (g : DiGraph α) :
    List.Perm (sortedNodes g) g.nodes :=
  List.perm_insertionSort _ _

theorem sortedNodes_nodup (g : DiGraph α) : (sortedNodes g).Nodup :=
  (sortedNodes_perm g).nodup_iff.mpr g.nodes_nodup

theorem mem_sortedNodes (g : DiGraph α) (u : α) :
    u ∈ sortedNodes g ↔ u ∈ g.nodes :=
  (sortedNodes_perm g).mem_iff

theorem sortedNodes_length (g : DiGraph α) :
    (sortedNodes g).length = g.nodes.length :=
  (sortedNodes_perm g).length_eq

theorem sortedNodes_ne_nil (g : DiGraph α) (h : g.nodes ≠ []) :
    sortedNodes g ≠ [] := by
  intro hz
  apply h
  have := sortedNodes_length g
  rw [hz] at this
  exact List.length_eq_zero.mp this.symm

theorem sortedNodes_sorted (g : DiGraph α) :
    List.Sorted (fun a b => a ≤ b) (sortedNodes g) :=
  List.sorted_insertionSort _ g.nodes

theorem sortedNodes_adj_nodup (g : DiGraph α) (u : α)
    (hu : u ∈ sortedNodes g) : (g.adj u).Nodup :=
  g.adj_nodup u ((mem_sortedNodes g u).mp hu)

theorem sortedNodes_adj_mem (g : DiGraph α) (u : α) (hu : u ∈ sortedNodes g) :
    ∀ x ∈ g.adj u, x ∈ sortedNodes g := fun x hx =>
  (mem_sortedNodes g x).mpr (g.adj_mem u ((mem_sortedNodes g u).mp hu) x hx)

/-! ### Unfolding the engine on a non-empty graph -/

theorem manual_pagerank_run_pos (g : DiGraph α) (h : g.nodes ≠ []) (d : ℚ)
    (it : Nat) (tol : ℚ) :
    manual_pagerank_run g d it tol =
      (Except.ok
          ((sortedNodes g).zip (powerLoop (prStep g d) tol 0 it (initVec g)).1),
        (powerLoop (prStep g d) tol 0 it (initVec g)).2) := by
  unfold manual_pagerank_run
  rw [if_neg (fun hz : (sortedNodes g).length = 0 =>
    sortedNodes_ne_nil g h (List.length_eq_zero.mp hz))]

theorem manual_pagerank_ok (g : DiGraph α) (h : g.nodes ≠ []) (d : ℚ)
    (it : Nat) (tol : ℚ) :
    manual_pagerank g d it tol =
      Except.ok
        ((sortedNodes g).zip (powerLoop (prStep g d) tol 0 it (initVec g)).1) := by
  unfold manual_pagerank
  rw [manual_pagerank_run_pos g h d it tol]

theorem prLoop_length (g : DiGraph α) (d : ℚ) (it : Nat) (tol : ℚ) :
    ((powerLoop (prStep g d) tol 0 it (initVec g)).1).length =
      (sortedNodes g).length := by
  refine powerLoop_fst_invariant
    (fun w => w.length = (sortedNodes g).length) (prStep g d) tol
    (fun w hw => ?_) it 0 (initVec g) (by simp [initVec])
  unfold prStep
  exact pagerankStep_length _ _ _ _

theorem prLoop_sum_one (g : DiGraph α) (hne : g.nodes ≠ []) (d : ℚ)
    (it : Nat) (tol : ℚ) :
    ((powerLoop (prStep g d) tol 0 it (initVec g)).1).sum = 1 ∧
    ((powerLoop (prStep g d) tol 0 it (initVec g)).1).length =
      (sortedNodes g).length := by
  have hNn : (sortedNodes g).length ≠ 0 := fun hz =>
    sortedNodes_ne_nil g hne (List.length_eq_zero.mp hz)
  have hN : ((sortedNodes g).length : ℚ) ≠ 0 := Nat.cast_ne_zero.mpr hNn
  have key := powerLoop_fst_invariant
    (fun w => w.sum = 1 ∧ w.length = (sortedNodes g).length) (prStep g d) tol
    (fun w hw => by
      constructor
      · unfold prStep prMatrix
        exact pagerankStep_sum (sortedNodes g) g.adj (sortedNodes_nodup g)
          (sortedNodes_ne_nil g hne) (sortedNodes_adj_nodup g)
          (sortedNodes_adj_mem g) d w hw.2 hw.1
      · unfold prStep
        exact pagerankStep_length _ _ _ _)
    it 0 (initVec g)
    (by
      constructor
      · unfold initVec
        rw [List.sum_replicate, nsmul_eq_mul]
        field_simp
      · simp [initVec])
  exact key

theorem prLoop_nonneg (g : DiGraph α) (d : ℚ) (hd0 : 0 ≤ d) (hd1 : d ≤ 1)
    (it : Nat) (tol : ℚ) :
    ∀ x ∈ (powerLoop (prStep g d) tol 0 it (initVec g)).1, 0 ≤ x := by
  refine powerLoop_fst_invariant (fun w => ∀ x ∈ w, 0 ≤ x) (prStep g d) tol
    (fun w hw => ?_) it 0 (initVec g) ?_
  · unfold prStep prMatrix
    exact pagerankStep_nonneg (sortedNodes g) g.adj (sortedNodes_nodup g) d
      hd0 hd1 w hw
  · intro x hx
    unfold initVec at hx
    rw [List.eq_of_mem_replicate hx]
    exact one_div_nonneg.mpr (Nat.cast_nonneg _)

theorem manual_pagerank_keys (g : DiGraph α) (h : g.nodes ≠ []) (d : ℚ)
    (it : Nat) (tol : ℚ) (m : List (α × ℚ))
    (hm : manual_pagerank g d it tol = Except.ok m) :
    m.map Prod.fst = sortedNodes g := by
  rw [manual_pagerank_ok g h d it tol] at hm
  have hm2 :
      m = (sortedNodes g).zip (powerLoop (prStep g d) tol 0 it (initVec g)).1 :=
    (Except.ok.injEq _ _).mp hm.symm
  rw [hm2]
  exact List.map_fst_zip _ _ (le_of_eq (prLoop_length g d it tol).symm)

/-! ### Claim theorems -/

/-- C1: for every non-empty directed graph and every damping factor in (0,1),
the rank values in the mapping returned by `manual_pagerank` sum to 1 within
1e-6 absolute error (in this exact-arithmetic model the sum is exactly 1 at
every iterate, so in particular at the returned one). -/
theorem C1_sum_to_one (g : DiGraph α) (d : ℚ) (it : Nat) (tol : ℚ)
    (m : List (α × ℚ)) (hg : g.nodes ≠ []) (hd0 : 0 < d) (hd1 : d < 1)
    (hm : manual_pagerank g d it tol = Except.ok m) :
    |(m.map Prod.snd).sum - 1| ≤ 1 / 1000000 := by
  rw [manual_pagerank_ok g hg d it tol] at hm
  have hm2 :
      m = (sortedNodes g).zip (powerLoop (prStep g d) tol 0 it (initVec g)).1 :=
    (Except.ok.injEq _ _).mp hm.symm
  obtain ⟨hsum, hlen⟩ := prLoop_sum_one g hg d it tol
  rw [hm2, List.map_snd_zip _ _ (le_of_eq hlen), hsum]
  norm_num

/-- Witness for C1 at the experiment's 3-node graph, damping 0.85, two
iterations. -/
theorem C1_sum_to_one_witness :
    exampleG.nodes ≠ [] ∧ (0 : ℚ) < 17 / 20 ∧ (17 / 20 : ℚ) < 1 ∧
    |(([('A', (2021 / 5400 : ℚ)), ('B', 3379 / 10800),
        ('C', 3379 / 10800)].map Prod.snd).sum - 1)| ≤ 1 / 1000000 :=
  ⟨by decide, by norm_num, by norm_num,
    C1_sum_to_one exampleG (17 / 20) 2 (1 / 1000000)
      [('A', 2021 / 5400), ('B', 3379 / 10800), ('C', 3379 / 10800)]
      (by decide) (by norm_num) (by norm_num)
      (by with_unfolding_all rfl)⟩

/-- C2 counterexample: a damping factor of 3/2 lies outside (0,1), yet the
call does not fail with any error — no validation is performed and an
ordinary result is returned. -/
theorem C2_counterexample :
    ¬ ((3 / 2 : ℚ) < 1) ∧
    manual_pagerank exampleG (3 / 2) 1 (1 / 1000000) =
      Except.ok [('A', (1 / 2 : ℚ)), ('B', 1 / 4), ('C', 1 / 4)] :=
  ⟨by with_unfolding_all decide, by with_unfolding_all rfl⟩

/-- C2 amended: the engine performs no argument validation.  A call on a
non-empty graph returns an ordinary result for every damping factor,
iteration count and tolerance (including invalid ones); a call on an empty
graph with at least one iteration fails with `ZeroDivisionError` raised by
`(1 - d) / N` inside the first loop iteration — not with an
`InvalidParameter` error before computation (no such check exists). -/
theorem C2_no_validation (g : DiGraph α) (d : ℚ) (it : Nat) (tol : ℚ) :
    (g.nodes ≠ [] → ∃ m, manual_pagerank g d it tol = Except.ok m) ∧
    (g.nodes = [] → it ≠ 0 →
      manual_pagerank g d it tol = Except.error PyErr.zeroDivisionError) := by
  constructor
  · intro h
    exact ⟨_, manual_pagerank_ok g h d it tol⟩
  · intro h hit
    have hlen : (sortedNodes g).length = 0 := by
      rw [sortedNodes_length, h]
      rfl
    simp [manual_pagerank, manual_pagerank_run, hlen, hit]

/-- Witness for C2 at a non-empty and at the empty graph. -/
theorem C2_no_validation_witness :
    (∃ m, manual_pagerank exampleG (17 / 20) 1 (1 / 2) = Except.ok m) ∧
    manual_pagerank emptyG (17 / 20) 1 (1 / 2) =
      Except.error PyErr.zeroDivisionError :=
  ⟨(C2_no_validation exampleG (17 / 20) 1 (1 / 2)).1 (by decide),
    (C2_no_validation emptyG (17 / 20) 1 (1 / 2)).2 (by decide) (by decide)⟩

/-- C3 counterexample: on the two-node graph A→B with tolerance 1, the very
first tolerance check triggers (`l1dist v_next v = 1/4 < 1`), `v_next` is
`[3/8, 5/8]`, yet the returned mapping carries the initial vector
`[1/2, 1/2]` — the mapping is built from the previous iterate `v`, not from
`v_next`. -/
theorem C3_counterexample :
    initVec exampleG2 = [(1 / 2 : ℚ), 1 / 2] ∧
    prStep exampleG2 (1 / 2) [1 / 2, 1 / 2] = [3 / 8, 5 / 8] ∧
    l1dist [(3 / 8 : ℚ), 5 / 8] [1 / 2, 1 / 2] < 1 ∧
    manual_pagerank exampleG2 (1 / 2) 100 1 =
      Except.ok [('A', (1 / 2 : ℚ)), ('B', 1 / 2)] ∧
    ¬ ((3 / 8 : ℚ) = 1 / 2) :=
  ⟨by with_unfolding_all rfl, by with_unfolding_all rfl,
    by with_unfolding_all decide, by with_unfolding_all rfl,
    by with_unfolding_all decide⟩

/-- C3 amended: whenever the iteration loop finds the L1 distance between
`v_next = f v` and the current `v` to be below tolerance, the engine stops
(printing the convergence message) and the vector it hands back is the
current `v` — the previous iterate — because the `break` precedes the
assignment `v = v_next`. -/
theorem C3_converged_returns_previous (f : List ℚ → List ℚ) (tol : ℚ)
    (k i : Nat) (v : List ℚ) (h : l1dist (f v) v < tol) :
    powerLoop f tol i (k + 1) v = (v, [convergedMsg i]) := by
  rw [powerLoop_succ, if_pos h]

/-- Witness for C3's amended theorem at the two-node graph. -/
theorem C3_converged_returns_previous_witness :
    l1dist (prStep exampleG2 (1 / 2) [1 / 2, 1 / 2]) [1 / 2, 1 / 2] < 1 ∧
    powerLoop (prStep exampleG2 (1 / 2)) 1 0 100 [(1 / 2 : ℚ), 1 / 2] =
      ([(1 / 2 : ℚ), 1 / 2], [convergedMsg 0]) :=
  ⟨by with_unfolding_all decide,
    C3_converged_returns_previous (prStep exampleG2 (1 / 2)) 1 99 0
      [1 / 2, 1 / 2] (by with_unfolding_all decide)⟩

/-- C4: in the transition matrix built by the engine, a column of a node `u`
with non-empty out-neighbor set holds `1/outdeg(u)` at each out-neighbor row
and 0 elsewhere; the column of a dangling node holds `1/N` at every row; and
every column sums to exactly 1 (the matrix is column-stochastic). -/
theorem C4_column_stochastic (g : DiGraph α) (u : α)
    (hu : u ∈ sortedNodes g) :
    (∀ r ∈ sortedNodes g,
        prMatrix g r u =
          (if (g.adj u).isEmpty then 1 / ((sortedNodes g).length : ℚ)
           else if r ∈ g.adj u then 1 / ((g.adj u).length : ℚ) else 0)) ∧
    ((sortedNodes g).map (fun r => prMatrix g r u)).sum = 1 := by
  constructor
  · intro r hr
    unfold prMatrix
    rw [buildM_eval (sortedNodes g) g.adj (sortedNodes_nodup g) r u hr]
    simp [hu]
  · unfold prMatrix
    exact buildM_colSum (sortedNodes g) g.adj (sortedNodes_nodup g) u hu
      (sortedNodes_adj_nodup g u hu) (sortedNodes_adj_mem g u hu)

/-- Witness for C4 at the dangling node B of the example graph, row A. -/
theorem C4_column_stochastic_witness :
    prMatrix exampleG 'A' 'B' =
      (if (exampleG.adj 'B').isEmpty
        then 1 / ((sortedNodes exampleG).length : ℚ)
       else if 'A' ∈ exampleG.adj 'B'
        then 1 / ((exampleG.adj 'B').length : ℚ) else 0) ∧
    ((sortedNodes exampleG).map (fun r => prMatrix exampleG r 'B')).sum = 1 :=
  ⟨(C4_column_stochastic exampleG 'B' (by with_unfolding_all decide)).1 'A'
      (by with_unfolding_all decide),
    (C4_column_stochastic exampleG 'B' (by with_unfolding_all decide)).2⟩

/-- The full run of the experiment: `manual_pagerank(G, d=0.85)` with the
default 100 iterations and 1e-6 tolerance. -/
def examplePR : List (Char × ℚ) :=
  (manual_pagerank exampleG (17 / 20) 100 (1 / 1000000)).toOption.getD []

/-- The rank the experiment's run assigns to node `x`. -/
def rankOf (x : Char) : ℚ :=
  (examplePR.lookup x).getD 0

/-- Modelled from the spec: the independent reference PageRank implementation
(`networkx.pagerank`, an external library function, not part of this
repository's sources) evaluated on the 3-node example graph with damping
0.85.  It is represented by the exact stationary distribution of the damped
transition operator; that this vector is a genuine fixed point of the
engine's own update (hence the reference value both implementations
approximate) is the first conjunct of `C5_reference_agreement`. -/
def referenceRank : List ℚ :=
  [37 / 94, 57 / 188, 57 / 188]

/-- C5 counterexample: in the engine's output on the example graph, B and C
receive exactly equal ranks (their update rows coincide), so the output does
not rank C strictly above B — the claimed order "A highest, C second,
B lowest" fails at its C-above-B part. -/
theorem C5_counterexample :
    rankOf 'B' = rankOf 'C' ∧ ¬ (rankOf 'B' < rankOf 'C') := by
  have h : rankOf 'B' = rankOf 'C' := by with_unfolding_all rfl
  exact ⟨h, fun hlt => lt_irrefl _ (h ▸ hlt)⟩

/-- C5 amended: the engine's output on the 3-node example matches the
independent reference PageRank (represented by the exact stationary vector,
verified as a fixed point of the engine's update) within 1e-3 per node, and
ranks A highest — but B and C are tied exactly, not ordered C above B. -/
theorem C5_reference_agreement :
    prStep exampleG (17 / 20) referenceRank = referenceRank ∧
    examplePR.map Prod.fst = sortedNodes exampleG ∧
    |rankOf 'A' - 37 / 94| < 1 / 1000 ∧
    |rankOf 'B' - 57 / 188| < 1 / 1000 ∧
    |rankOf 'C' - 57 / 188| < 1 / 1000 ∧
    rankOf 'C' < rankOf 'A' ∧ rankOf 'B' = rankOf 'C' := by
  have hA : rankOf 'A' =
      (741126727625980832776089307253921 : ℚ) /
        1882863576540000000000000000000000 := by
    with_unfolding_all rfl
  have hB : rankOf 'B' =
      (1141736848914019167223910692746079 : ℚ) /
        3765727153080000000000000000000000 := by
    with_unfolding_all rfl
  have hC : rankOf 'C' =
      (1141736848914019167223910692746079 : ℚ) /
        3765727153080000000000000000000000 := by
    with_unfolding_all rfl
  refine ⟨by with_unfolding_all rfl, by with_unfolding_all rfl, ?_, ?_, ?_, ?_, ?_⟩
  · rw [hA]; with_unfolding_all decide
  · rw [hB]; with_unfolding_all decide
  · rw [hC]; with_unfolding_all decide
  · rw [hC, hA]; with_unfolding_all decide
  · rw [hB, hC]

/-- C6: if every one of the `max_iterations` tolerance checks fails (the L1
distance between successive iterates never drops below tolerance), the engine
returns the last computed vector — `iterations` applications of the update to
the initial vector — and raises no error. -/
theorem C6_exhaustion_returns_last (g : DiGraph α) (d : ℚ) (it : Nat)
    (tol : ℚ) (hg : g.nodes ≠ [])
    (hnc : ∀ j < it,
      ¬ l1dist (prStep g d ((prStep g d)^[j] (initVec g)))
          ((prStep g d)^[j] (initVec g)) < tol) :
    manual_pagerank g d it tol =
      Except.ok ((sortedNodes g).zip ((prStep g d)^[it] (initVec g))) := by
  rw [manual_pagerank_ok g hg d it tol,
    powerLoop_no_conv (prStep g d) tol it 0 (initVec g) hnc]

/-- Witness for C6: with tolerance 0 no check can succeed, and after 2
iterations on the two-node graph the engine returns the second iterate. -/
theorem C6_exhaustion_returns_last_witness :
    manual_pagerank exampleG2 (1 / 2) 2 0 =
      Except.ok ((sortedNodes exampleG2).zip
        ((prStep exampleG2 (1 / 2))^[2] (initVec exampleG2))) :=
  C6_exhaustion_returns_last exampleG2 (1 / 2) 2 0 (by decide)
    (by with_unfolding_all decide)

/-- C7: the engine is deterministic — its entire observable behaviour (value
and stdout) depends only on the graph's node *set* (any permutation of the
node list yields identical output, because positions are assigned by sorting
the identifiers) and adjacency, and the keys of the returned mapping are
exactly the sorted node identifiers. -/
theorem C7_deterministic (g1 g2 : DiGraph α) (d : ℚ) (it : Nat) (tol : ℚ)
    (hperm : List.Perm g1.nodes g2.nodes) (hadj : g1.adj = g2.adj) :
    manual_pagerank_run g1 d it tol = manual_pagerank_run g2 d it tol ∧
    (∀ m, manual_pagerank g1 d it tol = Except.ok m →
      m.map Prod.fst = sortedNodes g1) := by
  have hsort : sortedNodes g1 = sortedNodes g2 :=
    List.eq_of_perm_of_sorted
      (((sortedNodes_perm g1).trans hperm).trans (sortedNodes_perm g2).symm)
      (sortedNodes_sorted g1) (sortedNodes_sorted g2)
  constructor
  · unfold manual_pagerank_run prStep prMatrix initVec
    rw [hsort, hadj]
  · intro m hm
    by_cases h : g1.nodes = []
    · have hlen : (sortedNodes g1).length = 0 := by
        rw [sortedNodes_length, h]
        rfl
      unfold manual_pagerank manual_pagerank_run at hm
      rw [if_pos hlen] at hm
      by_cases hit : it = 0
      · rw [if_pos hit] at hm
        have hm2 : m = [] := (Except.ok.inj hm).symm
        rw [hm2]
        exact (List.length_eq_zero.mp hlen).symm ▸ rfl
      · rw [if_neg hit] at hm
        exact absurd hm (by simp)
    · exact manual_pagerank_keys g1 h d it tol m hm

/-- Witness for C7: the two presentations of the two-node graph (node lists
in different orders) produce identical outputs. -/
theorem C7_deterministic_witness :
    manual_pagerank_run exampleG2r (1 / 2) 2 0 =
      manual_pagerank_run exampleG2 (1 / 2) 2 0 ∧
    [('A', (13 / 32 : ℚ)), ('B', 19 / 32)].map Prod.fst =
      sortedNodes exampleG2r :=
  ⟨(C7_deterministic exampleG2r exampleG2 (1 / 2) 2 0 (by decide) rfl).1,
    (C7_deterministic exampleG2r exampleG2 (1 / 2) 2 0 (by decide) rfl).2
      [('A', 13 / 32), ('B', 19 / 32)] (by with_unfolding_all rfl)⟩

/-- C8: for a non-empty graph and damping in (0,1), the returned mapping's
keys are exactly the graph's nodes (a permutation of the duplicate-free node
list — each node exactly once, nothing else), and every rank is ≥ 0. -/
theorem C8_keys_exact_nonneg (g : DiGraph α) (d : ℚ) (it : Nat) (tol : ℚ)
    (m : List (α × ℚ)) (hg : g.nodes ≠ []) (hd0 : 0 < d) (hd1 : d < 1)
    (hm : manual_pagerank g d it tol = Except.ok m) :
    List.Perm (m.map Prod.fst) g.nodes ∧ ∀ p ∈ m, 0 ≤ p.2 := by
  constructor
  · rw [manual_pagerank_keys g hg d it tol m hm]
    exact sortedNodes_perm g
  · intro p hp
    rw [manual_pagerank_ok g hg d it tol] at hm
    have hm2 :
        m = (sortedNodes g).zip (powerLoop (prStep g d) tol 0 it (initVec g)).1 :=
      (Except.ok.injEq _ _).mp hm.symm
    rw [hm2] at hp
    obtain ⟨a, b⟩ := p
    exact prLoop_nonneg g d (le_of_lt hd0) (le_of_lt hd1) it tol b
      (List.of_mem_zip hp).2

/-- Witness for C8 at the example graph (one iteration, loose tolerance: the
first check converges and the uniform vector is returned). -/
theorem C8_keys_exact_nonneg_witness :
    List.Perm
      ([('A', (1 / 3 : ℚ)), ('B', 1 / 3), ('C', 1 / 3)].map Prod.fst)
      exampleG.nodes ∧
    (0 : ℚ) ≤ 1 / 3 :=
  ⟨(C8_keys_exact_nonneg exampleG (17 / 20) 1 (1 / 2)
      [('A', 1 / 3), ('B', 1 / 3), ('C', 1 / 3)]
      (by decide) (by norm_num) (by norm_num) (by with_unfolding_all rfl)).1,
    (C8_keys_exact_nonneg exampleG (17 / 20) 1 (1 / 2)
      [('A', 1 / 3), ('B', 1 / 3), ('C', 1 / 3)]
      (by decide) (by norm_num) (by norm_num) (by with_unfolding_all rfl)).2
      ('B', 1 / 3) (by with_unfolding_all decide)⟩

/-- C9 counterexample: the engine is not free of observable output besides
its return value — on the two-node graph with tolerance 1 the convergence
check triggers at iteration 0 and the line "Converged at iteration 0" is
printed to stdout. -/
theorem C9_counterexample :
    (manual_pagerank_run exampleG2 (1 / 2) 100 1).2 = [convergedMsg 0] ∧
    (manual_pagerank_run exampleG2 (1 / 2) 100 1).2 ≠ ([] : List String) := by
  have h : (manual_pagerank_run exampleG2 (1 / 2) 100 1).2 = [convergedMsg 0] := by
    with_unfolding_all rfl
  exact ⟨h, fun hz => List.cons_ne_nil _ _ (h ▸ hz)⟩

/-- C9 amended: the engine does not mutate the graph and its value is a pure
function of its inputs (it is modelled unchanged by a pure function), but it
is not free of externally observable output: besides its return value it
prints exactly one convergence message to stdout when some tolerance check
within the iteration budget succeeds, and nothing otherwise. -/
theorem C9_stdout_only_convergence (g : DiGraph α) (d : ℚ) (it : Nat)
    (tol : ℚ) :
    (manual_pagerank_run g d it tol).2 = [] ∨
      ∃ i, i < it ∧ (manual_pagerank_run g d it tol).2 = [convergedMsg i] := by
  unfold manual_pagerank_run
  by_cases h : (sortedNodes g).length = 0
  · rw [if_pos h]
    by_cases hit : it = 0
    · rw [if_pos hit]
      left
      rfl
    · rw [if_neg hit]
      left
      rfl
  · rw [if_neg h]
    rcases powerLoop_log (prStep g d) tol it 0 (initVec g) with h1 | ⟨j, hj1, hj2, hj3⟩
    · left
      exact h1
    · right
      exact ⟨j, by omega, hj3⟩

/-- C10: in exact rational arithmetic one update step preserves total mass:
if the current vector (of the right dimension) sums to 1 and 0 < d < 1, the
updated vector sums to exactly 1 — for every graph, dangling nodes included. -/
theorem C10_step_preserves_sum (g : DiGraph α) (d : ℚ) (v : List ℚ)
    (hg : g.nodes ≠ []) (hd0 : 0 < d) (hd1 : d < 1)
    (hlen : v.length = (sortedNodes g).length) (hsum : v.sum = 1) :
    (prStep g d v).sum = 1 := by
  unfold prStep prMatrix
  exact pagerankStep_sum (sortedNodes g) g.adj (sortedNodes_nodup g)
    (sortedNodes_ne_nil g hg) (sortedNodes_adj_nodup g) (sortedNodes_adj_mem g)
    d v hlen hsum

/-- Witness for C10 at the example graph with a non-uniform unit-mass
vector. -/
theorem C10_step_preserves_sum_witness :
    (prStep exampleG (17 / 20) [1 / 2, 1 / 4, 1 / 4]).sum = 1 :=
  C10_step_preserves_sum exampleG (17 / 20) [1 / 2, 1 / 4, 1 / 4]
    (by decide) (by norm_num) (by norm_num) (by with_unfolding_all rfl)
    (by with_unfolding_all rfl)

end SNA
